import Mathlib

/-!
Formal model of the two MT5 historical-data download scripts
(`mt5_1minuto_por_chunks.py` and `download_tick_mt5.py`).

Modelling conventions:
- Timestamps (`datetime` values) are integers counting seconds since the Unix
  epoch; `timedelta(minutes=1)` is 60 and `timedelta(days=1)` is 86400.
- A DataFrame / numpy record (tick or 1-minute bar) is a `Row`: its `time`
  column is the timestamp and `payload` abstracts the remaining numeric columns
  (bid/ask/volume or OHLC), which none of the verified properties inspect.
- Calls into the MetaTrader 5 API and `DataFrame.to_csv` are oracles supplied
  as parameters; an `Except Unit` result models a call that may raise a Python
  exception, `Option` models the API's `None` result.  A Python
  `try/except` block appears as a `match` on the `Except` value.
-/

namespace MT5Spec

/-- A DataFrame row (one tick or one bar).  `time` is the record's timestamp in
epoch seconds; `payload` abstracts all other columns. -/
structure Row where
  time : Int
  payload : Int
deriving DecidableEq

/-- Comparison of rows by their `time` column, the order used by
`sort_values('time')`. -/
def leT (a b : Row) : Prop := a.time ≤ b.time

instance : DecidableRel leT := fun a b => inferInstanceAs (Decidable (a.time ≤ b.time))

instance : IsTotal Row leT := ⟨fun a b => Int.le_total a.time b.time⟩

instance : IsTrans Row leT := ⟨fun _ _ _ h1 h2 => le_trans h1 h2⟩

/-- `int((end_date - start_date).total_seconds() / 60)` from
`calculate_chunks` (mt5_1minuto_por_chunks.py line 36): the difference in
seconds divided by 60, truncated toward zero as Python `int()` does. -/
def totalMinutes (start_date end_date : Int) : Int :=
  (end_date - start_date).tdiv 60

/-- `int(max_bars * 0.9)` from `calculate_chunks` (line 43).  For every
realistic `max_bars` (below 2^49) the float product `max_bars * 0.9` rounds to
a double within half an ulp of the exact value `9 * max_bars / 10`, so the
truncation equals the integer floor `9 * max_bars / 10`. -/
def chunkMinutes (max_bars : Nat) : Nat :=
  max_bars * 9 / 10

/-- The `while current_start < end_date` loop of `calculate_chunks`
(lines 46-49): emit `(current_start, chunk_end)` with
`chunk_end = min(current_start + chunk_delta, end_date)` and restart from
`chunk_end + timedelta(minutes=1)`. -/
def calcLoop (end_date : Int) (cm : Nat) (current_start : Int) : List (Int × Int) :=
  if h : current_start < end_date then
    (current_start, min (current_start + 60 * (cm : Int)) end_date) ::
      calcLoop end_date cm (min (current_start + 60 * (cm : Int)) end_date + 60)
  else []
termination_by (end_date - current_start).toNat
decreasing_by
  simp_wf
  omega

/-- `calculate_chunks(start_date, end_date, max_bars)`
(mt5_1minuto_por_chunks.py lines 20-51). -/
def calculate_chunks (start_date end_date : Int) (max_bars : Nat) : List (Int × Int) :=
  if totalMinutes start_date end_date ≤ (max_bars : Int) then
    [(start_date, end_date)]
  else
    calcLoop end_date (chunkMinutes max_bars) start_date

/-- Decides whether the instant `t` lies inside (the closed interval of) some
chunk of the list. -/
def coversPoint (chunks : List (Int × Int)) (t : Int) : Bool :=
  chunks.any fun c => decide (c.1 ≤ t) && decide (t ≤ c.2)

/-- The `while current_end > self.start_date` loop of `download_in_batches`
(download_tick_mt5.py lines 86-114), recorded as the list of
`(batch_start, current_end)` ranges in the order they are fetched:
`batch_start = current_end - timedelta(days=1)` clamped below at `start_date`,
and the next iteration restarts from `current_end = batch_start`.  (The body's
final `if current_end <= self.start_date: break` repeats the loop condition
and changes nothing.) -/
def batchLoop (start_date current_end : Int) : List (Int × Int) :=
  if h : start_date < current_end then
    (max (current_end - 86400) start_date, current_end) ::
      batchLoop start_date (max (current_end - 86400) start_date)
  else []
termination_by (current_end - start_date).toNat
decreasing_by
  simp_wf
  omega

/-- The accumulation step shared by both fetch loops: a result is appended to
the accumulator exactly when it `is not None and len(...) > 0`
(mt5_1minuto_por_chunks.py line 121, download_tick_mt5.py line 99). -/
def accumulate (results : List (Option (List Row))) : List (List Row) :=
  results.filterMap fun r =>
    match r with
    | some d => if 0 < d.length then some d else none
    | none => none

/-- `drop_duplicates('time')` (mt5_1minuto_por_chunks.py line 131): keep the
first row carrying each `time` value, scanning left to right; `seen` is the set
of time keys already kept. -/
def dropDupsBy (seen : List Int) : List Row → List Row
  | [] => []
  | t :: ts =>
    if t.time ∈ seen then dropDupsBy seen ts
    else t :: dropDupsBy (t.time :: seen) ts

/-- Finalization of the bar pipeline (mt5_1minuto_por_chunks.py lines 130-131):
`sort_values('time')` then `drop_duplicates('time')`. -/
def finalizeBars (combined : List Row) : List Row :=
  dropDupsBy [] (List.insertionSort leT combined)

/-- Finalization of the tick pipeline (download_tick_mt5.py line 140):
`df = df.sort_values('time')`, with no deduplication. -/
def finalizeTicks (ticks : List Row) : List Row :=
  List.insertionSort leT ticks

/-- Running minimum of the `time` column, seeded with `a`. -/
def minTimeAux (l : List Row) (a : Int) : Int :=
  l.foldl (fun m r => min m r.time) a

/-- Running maximum of the `time` column, seeded with `a`. -/
def maxTimeAux (l : List Row) (a : Int) : Int :=
  l.foldl (fun m r => max m r.time) a

/-- `df['time'].min()` — the smallest timestamp of a nonempty frame
(0 for an empty one, a case the scripts guard against). -/
def timesMin : List Row → Int
  | [] => 0
  | t :: ts => minTimeAux ts t.time

/-- `df['time'].max()` — the largest timestamp of a nonempty frame. -/
def timesMax : List Row → Int
  | [] => 0
  | t :: ts => maxTimeAux ts t.time

/-- Two-digit zero padding, as in strftime `%m` / `%d`. -/
def pad2 (n : Nat) : String :=
  if n < 10 then "0" ++ toString n else toString n

/-- Four-digit zero padding, as in strftime `%Y`. -/
def pad4 (n : Nat) : String :=
  if n < 10 then "000" ++ toString n
  else if n < 100 then "00" ++ toString n
  else if n < 1000 then "0" ++ toString n
  else toString n

/-- Convert a count of days since 1970-01-01 to a civil `(year, month, day)`
date (proleptic Gregorian calendar, the standard `civil_from_days`
algorithm). -/
def civilFromDays (z0 : Int) : Int × Nat × Nat :=
  let z := z0 + 719468
  let era : Int := z.fdiv 146097
  let doe : Nat := (z - era * 146097).toNat
  let yoe : Nat := (doe - doe / 1460 + doe / 36524 - doe / 146096) / 365
  let y : Int := (yoe : Int) + era * 400
  let doy : Nat := doe - (365 * yoe + yoe / 4 - yoe / 100)
  let mp : Nat := (5 * doy + 2) / 153
  let d : Nat := doy - (153 * mp + 2) / 5 + 1
  let m : Nat := if mp < 10 then mp + 3 else mp - 9
  (if m ≤ 2 then y + 1 else y, m, d)

/-- `strftime('%Y%m%d')` applied to an epoch-seconds timestamp
(download_tick_mt5.py lines 144-145). -/
def fmtYMD (secs : Int) : String :=
  let c := civilFromDays (secs.fdiv 86400)
  pad4 c.1.toNat ++ pad2 c.2.1 ++ pad2 c.2.2

/-- Environment of one `TickDownloader` run: the outcomes of the MT5 API and
file-system calls it makes.  `copyTicks a b` is `mt5.copy_ticks_range` on the
range `[a, b]` (`Except.error` models a raised exception), `toCsv` is
`df.to_csv`, `fileExists` the `os.path.exists` check after writing. -/
structure TickOracle where
  initOk : Bool
  symbolOk : Bool
  copyTicks : Int → Int → Except Unit (Option (List Row))
  toCsv : Except Unit Unit
  fileExists : Bool

/-- `TickDownloader.get_ticks_by_date_range` (download_tick_mt5.py lines
31-46): returns the API result, with both the `None` result and a raised
exception converted to `None` by its internal `try/except`. -/
def get_ticks_by_date_range (copyTicks : Int → Int → Except Unit (Option (List Row)))
    (start_date end_date : Int) : Option (List Row) :=
  match copyTicks start_date end_date with
  | .ok r => r
  | .error _ => none

/-- `TickDownloader.download_in_batches` (download_tick_mt5.py lines 79-123):
fetch every range of `batchLoop` in order, keep the non-empty results, and
return `(True, concatenation)` if any batch produced data, `(False, None)`
otherwise.  (Fetch results never influence the control flow of the loop, so
the in-loop accumulation is exactly `accumulate` mapped over the visited
ranges.) -/
def download_in_batches (copyTicks : Int → Int → Except Unit (Option (List Row)))
    (start_date end_date : Int) : Bool × Option (List Row) :=
  let all_ticks_list :=
    accumulate ((batchLoop start_date end_date).map fun b =>
      get_ticks_by_date_range copyTicks b.1 b.2)
  if all_ticks_list.isEmpty then (false, none)
  else (true, some all_ticks_list.flatten)

/-- `TickDownloader.initialize_mt5` (download_tick_mt5.py lines 18-29).
Returns `(ok, shutdownRan)`: when `mt5.initialize()` fails it returns `False`
with no session to tear down; when `symbol_select` fails it calls
`mt5.shutdown()` itself before returning `False`. -/
def initialize_mt5 (o : TickOracle) : Bool × Bool :=
  if o.initOk = false then (false, false)
  else if o.symbolOk = false then (false, true)
  else (true, false)

/-- `TickDownloader.download_by_date_range` (download_tick_mt5.py lines
48-77).  Result is `((success, all_ticks), shutdownRan)`.  The `try` body
first attempts the full range, falling back to `download_in_batches`; the
`except` clause converts an escaping exception to `False` and the `finally`
clause runs `mt5.shutdown()` on every path out of the `try`. -/
def download_by_date_range (o : TickOracle) (start_date end_date : Int) :
    (Bool × Option (List Row)) × Bool :=
  let ini := initialize_mt5 o
  if ini.1 = false then ((false, none), ini.2)
  else
    let body : Except Unit (Bool × Option (List Row)) :=
      match get_ticks_by_date_range o.copyTicks start_date end_date with
      | some all_ticks =>
        if 0 < all_ticks.length then Except.ok (true, some all_ticks)
        else Except.ok (download_in_batches o.copyTicks start_date end_date)
      | none => Except.ok (download_in_batches o.copyTicks start_date end_date)
    match body with
    | .ok r => (r, true)
    | .error _ => ((false, none), true)

/-- `TickDownloader.save_ticks_to_csv` (download_tick_mt5.py lines 125-168).
Returns the name of the file written, or `None` on the empty-data guards, a
write exception, or the post-write existence check failing.  The
auto-generated filename (lines 143-146) is
`f"{symbol}_ticks_{first_date}_to_{last_date}_{len(df)}.csv"` with
`first_date` / `last_date` the `%Y%m%d` renderings of the sorted frame's
minimum and maximum timestamps. -/
def save_ticks_to_csv (o : TickOracle) (symbol : String) :
    Option (List Row) → Option String → Option String
  | none, _ => none
  | some ticks, filename =>
    if ticks.length = 0 then none
    else
      let body : Except Unit (Option String) :=
        let df := finalizeTicks ticks
        let fname :=
          match filename with
          | some f => f
          | none =>
            symbol ++ "_ticks_" ++ fmtYMD (timesMin df) ++ "_to_" ++
              fmtYMD (timesMax df) ++ "_" ++ toString df.length ++ ".csv"
        match o.toCsv with
        | .ok _ => Except.ok (if o.fileExists then some fname else none)
        | .error e => Except.error e
      match body with
      | .ok r => r
      | .error _ => none

/-- `download_ticks_by_date` (download_tick_mt5.py lines 212-235), reduced to
its data flow: save only after a successful download.  Result is
`(written file, shutdownRan)`. -/
def download_ticks_by_date (o : TickOracle) (symbol : String)
    (start_date end_date : Int) (output_file : Option String) : Option String × Bool :=
  let r := download_by_date_range o start_date end_date
  if r.1.1 then (save_ticks_to_csv o symbol r.1.2 output_file, r.2)
  else (none, r.2)

/-- Environment of one bar-pipeline run (mt5_1minuto_por_chunks.py):
`initOk` is `mt5.initialize()`, `copyRates` is `mt5.copy_rates_range` and
`toCsv` is `DataFrame.to_csv`. -/
structure BarOracle where
  initOk : Bool
  copyRates : Int → Int → Except Unit (Option (List Row))
  toCsv : Except Unit Unit

/-- `download_chunk` (mt5_1minuto_por_chunks.py lines 53-91): `None` on an API
`None` result, an empty frame, or a raised exception (caught by its
`try/except`); otherwise the fetched rows. -/
def download_chunk (copyRates : Int → Int → Except Unit (Option (List Row)))
    (chunk_start chunk_end : Int) : Option (List Row) :=
  match copyRates chunk_start chunk_end with
  | .error _ => none
  | .ok none => none
  | .ok (some df) => if df.length = 0 then none else some df

/-- `download_historical_data` (mt5_1minuto_por_chunks.py lines 93-137):
fetch every chunk of `calculate_chunks`, keep non-empty results, and on
success concatenate, sort by time and drop duplicate timestamps; `None` when
no chunk yielded data. -/
def download_historical_data (copyRates : Int → Int → Except Unit (Option (List Row)))
    (start_date end_date : Int) (max_bars : Nat) : Option (List Row) :=
  let chunks := calculate_chunks start_date end_date max_bars
  let all_data := accumulate (chunks.map fun c => download_chunk copyRates c.1 c.2)
  if all_data.isEmpty then none
  else some (finalizeBars all_data.flatten)

/-- `save_to_csv` (mt5_1minuto_por_chunks.py lines 139-147): result is
`(returned bool, file written)`; a raised `to_csv` exception is caught and
returns `False`. -/
def save_to_csv (toCsv : Except Unit Unit) : Bool × Bool :=
  match toCsv with
  | .ok _ => (true, true)
  | .error _ => (false, false)

/-- `main` (mt5_1minuto_por_chunks.py lines 149-181) with the hard-coded
symbol, date range and chunk size left as parameters.  Result is
`(file written, shutdownRan)`: abort before the `try` when `mt5.initialize()`
fails (no session exists yet), otherwise the `except` clause swallows any
escaping exception and the `finally` clause always runs `mt5.shutdown()`. -/
def barMain (o : BarOracle) (start_date end_date : Int) (max_bars : Nat) : Bool × Bool :=
  if o.initOk = false then (false, false)
  else
    let body : Except Unit Bool :=
      match download_historical_data o.copyRates start_date end_date max_bars with
      | some _ => Except.ok (save_to_csv o.toCsv).2
      | none => Except.ok false
    match body with
    | .ok written => (written, true)
    | .error _ => (false, true)

/-- An MT5 tick source holding exactly the ticks of `db`:
`copy_ticks_range(symbol, a, b, COPY_TICKS_ALL)` returns the ticks whose
timestamp lies in the closed interval `[a, b]` (the MT5 API includes both
boundary instants). -/
def dbFetch (db : List Row) : Int → Int → Except Unit (Option (List Row)) :=
  fun a b => Except.ok (some (db.filter fun t => decide (a ≤ t.time ∧ t.time ≤ b)))

/-- The filename pattern asserted by the specification for auto-generated
names: `<symbol>_<kind>_<start>_<end>_<count>.csv`, with `start`/`end` the
given date strings and `count` the record count, for some kind marker. -/
def matchesClaimedPattern (name symbol startS endS : String) (count : Nat) : Prop :=
  ∃ kind : String,
    name = symbol ++ "_" ++ kind ++ "_" ++ startS ++ "_" ++ endS ++ "_" ++
      toString count ++ ".csv"

/-- Shape of the chunk plan produced for `[s, e]` (`s < e`): nonempty and
ordered, the first chunk starts at `s`, consecutive chunks are separated by
exactly one minute, every chunk lies inside `[s, e]`, the last chunk ends in
`[e - 60, e]`, the plan has at most `(e - s)` entries, and every instant of
`[s, e]` is either inside a chunk or at most one minute past the end of a
chunk. -/
def chunkPlanOk (s e : Int) (cs : List (Int × Int)) : Prop :=
  cs ≠ [] ∧
  cs.head?.map Prod.fst = some s ∧
  List.Chain' (fun a b => b.1 = a.2 + 60) cs ∧
  List.Chain' (fun a b => a.1 + 60 ≤ b.1) cs ∧
  (∀ c ∈ cs, s ≤ c.1 ∧ c.1 ≤ c.2 ∧ c.2 ≤ e) ∧
  (∃ p, cs.getLast? = some p ∧ e - 60 ≤ p.2 ∧ p.2 ≤ e) ∧
  cs.length ≤ (e - s).toNat ∧
  (∀ t, s ≤ t → t ≤ e →
    (∃ c ∈ cs, c.1 ≤ t ∧ t ≤ c.2) ∨ (∃ c ∈ cs, c.2 < t ∧ t ≤ c.2 + 60))

/-- Shape of the batch plan fetched for `[s, e]` (`s < e`): nonempty, the
first fetched batch ends at `e`, the last fetched batch starts at `s`, each
batch ends exactly where the previously fetched batch starts (one shared
boundary instant), the `current_end` values strictly decrease, every batch is
a nonempty sub-range of `[s, e]` of the shape `(max (end - 86400) s, end)`,
there are at most `(e - s)` batches, and the batches cover all of `[s, e]`. -/
def batchPlanOk (s e : Int) (bs : List (Int × Int)) : Prop :=
  bs ≠ [] ∧
  bs.head?.map Prod.snd = some e ∧
  (∃ p, bs.getLast? = some p ∧ p.1 = s) ∧
  List.Chain' (fun a b => b.2 = a.1) bs ∧
  List.Chain' (fun a b => b.2 < a.2) bs ∧
  (∀ b ∈ bs, s ≤ b.1 ∧ b.1 < b.2 ∧ b.2 ≤ e ∧ b.1 = max (b.2 - 86400) s) ∧
  bs.length ≤ (e - s).toNat ∧
  (∀ t, s ≤ t → t ≤ e → ∃ b ∈ bs, b.1 ≤ t ∧ t ≤ b.2)

/-- Unfolding equation of `calcLoop`: terminated loop. -/
theorem calcLoop_nil (e : Int) (cm : Nat) (cs : Int) (h : ¬ cs < e) :
    calcLoop e cm cs = [] := by
  rw [calcLoop.eq_def]
  simp [h]

/-- Unfolding equation of `calcLoop`: one executed iteration, with the chunk
end and the next start supplied as computed values. -/
theorem calcLoop_cons (e : Int) (cm : Nat) (cs ce cn : Int) (h : cs < e)
    (hce : min (cs + 60 * (cm : Int)) e = ce) (hcn : ce + 60 = cn) :
    calcLoop e cm cs = (cs, ce) :: calcLoop e cm cn := by
  rw [calcLoop.eq_def]
  simp only [h, dite_true, dif_pos, hce, hcn]

/-- Unfolding equation of `batchLoop`: terminated loop. -/
theorem batchLoop_nil (s ce : Int) (h : ¬ s < ce) :
    batchLoop s ce = [] := by
  rw [batchLoop.eq_def]
  simp [h]

/-- Unfolding equation of `batchLoop`: one executed iteration, with the batch
start supplied as a computed value. -/
theorem batchLoop_cons (s ce bs : Int) (h : s < ce)
    (hbs : max (ce - 86400) s = bs) :
    batchLoop s ce = (bs, ce) :: batchLoop s bs := by
  rw [batchLoop.eq_def]
  simp only [h, dite_true, dif_pos, hbs]

/-- Invariant of the chunking loop: started at any `cs < e` it produces a
plan of the shape `chunkPlanOk cs e`. -/
theorem calcLoop_spec (e : Int) (cm : Nat) (cs : Int) (h : cs < e) :
    chunkPlanOk cs e (calcLoop e cm cs) := by
  rw [calcLoop_cons e cm cs (min (cs + 60 * (cm : Int)) e)
    (min (cs + 60 * (cm : Int)) e + 60) h rfl rfl]
  set m := min (cs + 60 * (cm : Int)) e with hm
  have hm1 : cs ≤ m := by omega
  have hm2 : m ≤ e := by omega
  by_cases h2 : m + 60 < e
  · have ih := calcLoop_spec e cm (m + 60) h2
    obtain ⟨ihne, ihhead, ihch1, ihch2, ihmem, ⟨p, ihlast, hp1, hp2⟩, ihlen, ihcov⟩ := ih
    obtain ⟨r0, R', hR⟩ := List.exists_cons_of_ne_nil ihne
    have hr0 : r0.1 = m + 60 := by
      rw [hR] at ihhead
      simpa using ihhead
    constructor
    · simp
    constructor
    · simp
    constructor
    · rw [hR, List.chain'_cons]
      refine ⟨by simpa using hr0, by rw [← hR]; exact ihch1⟩
    constructor
    · rw [hR, List.chain'_cons]
      refine ⟨by simp; omega, by rw [← hR]; exact ihch2⟩
    constructor
    · intro c hc
      rcases List.mem_cons.mp hc with rfl | hc'
      · exact ⟨le_refl _, hm1, hm2⟩
      · have := ihmem c hc'
        exact ⟨by omega, this.2.1, this.2.2⟩
    constructor
    · refine ⟨p, ?_, hp1, hp2⟩
      rw [hR, List.getLast?_cons_cons, ← hR]
      exact ihlast
    constructor
    · have hlen : (calcLoop e cm (m + 60)).length ≤ (e - (m + 60)).toNat := ihlen
      simp only [List.length_cons]
      omega
    · intro t ht1 ht2
      by_cases htc : t ≤ m
      · exact Or.inl ⟨(cs, m), by simp, ht1, htc⟩
      · by_cases htn : m + 60 ≤ t
        · rcases ihcov t htn ht2 with ⟨c, hc, hcc⟩ | ⟨c, hc, hcc⟩
          · exact Or.inl ⟨c, List.mem_cons_of_mem _ hc, hcc⟩
          · exact Or.inr ⟨c, List.mem_cons_of_mem _ hc, hcc⟩
        · exact Or.inr ⟨(cs, m), by simp, by omega, by omega⟩
  · rw [calcLoop_nil e cm (m + 60) h2]
    refine ⟨by simp, by simp, by simp, by simp, ?_, ⟨(cs, m), by simp, by omega, hm2⟩,
      by simp; omega, ?_⟩
    · intro c hc
      rcases List.mem_cons.mp hc with rfl | hc'
      · exact ⟨le_refl _, hm1, hm2⟩
      · simp at hc'
    · intro t ht1 ht2
      by_cases htc : t ≤ m
      · exact Or.inl ⟨(cs, m), by simp, ht1, htc⟩
      · exact Or.inr ⟨(cs, m), by simp, by omega, by omega⟩
termination_by (e - cs).toNat
decreasing_by
  simp_wf
  omega

/-- Invariant of the tick batch loop: started at any `ce > s` it fetches a
batch plan of the shape `batchPlanOk s ce`. -/
theorem batchLoop_spec (s ce : Int) (h : s < ce) :
    batchPlanOk s ce (batchLoop s ce) := by
  rw [batchLoop_cons s ce (max (ce - 86400) s) h rfl]
  set b0 := max (ce - 86400) s with hb
  have hb1 : s ≤ b0 := by omega
  have hb2 : b0 < ce := by omega
  by_cases h2 : s < b0
  · have ih := batchLoop_spec s b0 h2
    obtain ⟨ihne, ihhead, ⟨p, ihlast, hp⟩, ihch1, ihch2, ihmem, ihlen, ihcov⟩ := ih
    obtain ⟨r0, R', hR⟩ := List.exists_cons_of_ne_nil ihne
    have hr0 : r0.2 = b0 := by
      rw [hR] at ihhead
      simpa using ihhead
    constructor
    · simp
    constructor
    · simp
    constructor
    · refine ⟨p, ?_, hp⟩
      rw [hR, List.getLast?_cons_cons, ← hR]
      exact ihlast
    constructor
    · rw [hR, List.chain'_cons]
      refine ⟨by simpa using hr0, by rw [← hR]; exact ihch1⟩
    constructor
    · rw [hR, List.chain'_cons]
      refine ⟨by simp; omega, by rw [← hR]; exact ihch2⟩
    constructor
    · intro b hbm
      rcases List.mem_cons.mp hbm with rfl | hb'
      · exact ⟨hb1, hb2, le_refl _, hb⟩
      · have := ihmem b hb'
        exact ⟨this.1, this.2.1, by omega, this.2.2.2⟩
    constructor
    · have : (batchLoop s b0).length ≤ (b0 - s).toNat := ihlen
      simp only [List.length_cons]
      omega
    · intro t ht1 ht2
      by_cases htb : b0 ≤ t
      · exact ⟨(b0, ce), by simp, htb, ht2⟩
      · obtain ⟨b, hbm, hbb⟩ := ihcov t ht1 (by omega)
        exact ⟨b, List.mem_cons_of_mem _ hbm, hbb⟩
  · have hb0 : b0 = s := by omega
    rw [batchLoop_nil s b0 h2]
    refine ⟨by simp, by simp, ⟨(b0, ce), by simp, hb0⟩, by simp, by simp, ?_,
      by simp; omega, ?_⟩
    · intro b hbm
      rcases List.mem_cons.mp hbm with rfl | hb'
      · exact ⟨hb1, hb2, le_refl _, hb⟩
      · simp at hb'
    · intro t ht1 ht2
      exact ⟨(b0, ce), by simp, by omega, ht2⟩
termination_by (ce - s).toNat
decreasing_by
  simp_wf
  omega

/-- Flattening the accumulator equals flattening all non-`None` results: the
empty results contribute no records. -/
theorem accumulate_flatten (results : List (Option (List Row))) :
    (accumulate results).flatten = (results.filterMap id).flatten := by
  induction results with
  | nil => rfl
  | cons r rs ih =>
    cases r with
    | none => simpa [accumulate, List.filterMap_cons] using ih
    | some d =>
      cases d with
      | nil => simpa [accumulate, List.filterMap_cons] using ih
      | cons x xs =>
        simp only [accumulate, List.filterMap_cons] at ih ⊢
        simp [ih]

/-- If every result is `None` or empty, the accumulator stays empty. -/
theorem accumulate_nil (results : List (Option (List Row)))
    (h : ∀ r ∈ results, r = none ∨ r = some []) : accumulate results = [] := by
  induction results with
  | nil => rfl
  | cons r rs ih =>
    have hr := h r (by simp)
    have hrs := ih fun x hx => h x (List.mem_cons_of_mem _ hx)
    rcases hr with rfl | rfl <;> simpa [accumulate, List.filterMap_cons] using hrs

/-- `dropDupsBy` returns a sublist of its input. -/
theorem dropDupsBy_sublist (seen : List Int) (l : List Row) :
    (dropDupsBy seen l).Sublist l := by
  induction l generalizing seen with
  | nil => simp [dropDupsBy]
  | cons t ts ih =>
    by_cases h : t.time ∈ seen
    · simp only [dropDupsBy, if_pos h]
      exact (ih seen).cons t
    · simp only [dropDupsBy, if_neg h]
      exact (ih _).cons₂ t

/-- No row surviving `dropDupsBy` carries an already-seen time key. -/
theorem dropDupsBy_not_seen (seen : List Int) (l : List Row) :
    ∀ x ∈ dropDupsBy seen l, x.time ∉ seen := by
  induction l generalizing seen with
  | nil => simp [dropDupsBy]
  | cons t ts ih =>
    by_cases h : t.time ∈ seen
    · simp only [dropDupsBy, if_pos h]
      exact ih seen
    · simp only [dropDupsBy, if_neg h]
      intro x hx
      rcases List.mem_cons.mp hx with rfl | hx'
      · exact h
      · intro hxs
        exact ih _ x hx' (List.mem_cons_of_mem _ hxs)

/-- The rows surviving `dropDupsBy` carry pairwise distinct time keys. -/
theorem dropDupsBy_pairwise (seen : List Int) (l : List Row) :
    (dropDupsBy seen l).Pairwise (fun a b => a.time ≠ b.time) := by
  induction l generalizing seen with
  | nil => simp [dropDupsBy]
  | cons t ts ih =>
    by_cases h : t.time ∈ seen
    · simp only [dropDupsBy, if_pos h]
      exact ih seen
    · simp only [dropDupsBy, if_neg h]
      refine List.Pairwise.cons ?_ (ih _)
      intro b hb
      have hbn := dropDupsBy_not_seen _ _ b hb
      intro heq
      exact hbn (by rw [← heq]; exact List.mem_cons_self _ _)

/-- Seeded fold-minimum is the seed when the seed bounds every element. -/
theorem minTimeAux_of_le (l : List Row) (a : Int) (h : ∀ r ∈ l, a ≤ r.time) :
    minTimeAux l a = a := by
  induction l generalizing a with
  | nil => rfl
  | cons t ts ih =>
    have h1 : a ≤ t.time := h t (by simp)
    have : minTimeAux (t :: ts) a = minTimeAux ts (min a t.time) := rfl
    rw [this, min_eq_left h1]
    exact ih a fun r hr => h r (List.mem_cons_of_mem _ hr)

/-- On a sorted frame, `df['time'].min()` is the head's timestamp. -/
theorem timesMin_sorted_head (t : Row) (ts : List Row)
    (h : List.Sorted leT (t :: ts)) : timesMin (t :: ts) = t.time := by
  have hc := List.sorted_cons.mp h
  exact minTimeAux_of_le ts t.time hc.1

/-- Seeded fold-maximum on a sorted list reaches `max` of the seed and the
last element's timestamp. -/
theorem maxTimeAux_sorted (l : List Row) (p : Row)
    (h : List.Sorted leT l) (hp : l.getLast? = some p) :
    ∀ a, maxTimeAux l a = max a p.time := by
  induction l with
  | nil => simp at hp
  | cons t ts ih =>
    cases ts with
    | nil =>
      simp only [List.getLast?_singleton, Option.some_inj] at hp
      subst hp
      intro a
      rfl
    | cons u us =>
      intro a
      have hp' : (u :: us).getLast? = some p := by
        rwa [List.getLast?_cons_cons] at hp
      have hs' : List.Sorted leT (u :: us) := h.of_cons
      have hpm : p ∈ u :: us := by
        obtain ⟨hne, rfl⟩ := List.mem_getLast?_eq_getLast (Option.mem_def.mpr hp')
        exact List.getLast_mem hne
      have htp : t.time ≤ p.time := List.rel_of_sorted_cons h p hpm
      have : maxTimeAux (t :: u :: us) a = maxTimeAux (u :: us) (max a t.time) := rfl
      rw [this, ih hs' hp' (max a t.time)]
      omega

/-- On a sorted frame, `df['time'].max()` is the last row's timestamp. -/
theorem timesMax_sorted_getLast (t : Row) (ts : List Row) (p : Row)
    (h : List.Sorted leT (t :: ts)) (hp : (t :: ts).getLast? = some p) :
    timesMax (t :: ts) = p.time := by
  cases ts with
  | nil =>
    simp only [List.getLast?_singleton, Option.some_inj] at hp
    subst hp
    rfl
  | cons u us =>
    have hp' : (u :: us).getLast? = some p := by
      rwa [List.getLast?_cons_cons] at hp
    have hs' : List.Sorted leT (u :: us) := h.of_cons
    have hpm : p ∈ u :: us := by
      obtain ⟨hne, rfl⟩ := List.mem_getLast?_eq_getLast (Option.mem_def.mpr hp')
      exact List.getLast_mem hne
    have htp : t.time ≤ p.time := List.rel_of_sorted_cons h p hpm
    have : timesMax (t :: u :: us) = maxTimeAux (u :: us) t.time := rfl
    rw [this, maxTimeAux_sorted (u :: us) p hs' hp' t.time]
    omega

/-- A tick environment in which MT5 initializes, the symbol is available,
every range query succeeds but returns `None`, and writing succeeds. -/
def tickOracleAllEmpty : TickOracle :=
  ⟨true, true, fun _ _ => Except.ok none, Except.ok (), true⟩

/-- A bar environment in which MT5 initializes, every range query succeeds
but returns `None`, and writing succeeds. -/
def barOracleAllEmpty : BarOracle :=
  ⟨true, fun _ _ => Except.ok none, Except.ok ()⟩

/-- A tick environment in which every API and write call raises. -/
def tickOracleErr : TickOracle :=
  ⟨true, true, fun _ _ => Except.error (), Except.error (), false⟩

/-- A bar environment in which every API and write call raises. -/
def barOracleErr : BarOracle :=
  ⟨true, fun _ _ => Except.error (), Except.error ()⟩

/-- Claim C1, counterexample: for the range `[0, 7200]` (two hours) with
`max_bars = 100` the planner returns `[(0, 5400), (5460, 7200)]`, and the
instant `5430` lies in `[0, 7200]` but in neither chunk — the chunks are not
contiguous and their union is not the requested range. -/
theorem claim_C1_counterexample :
    calculate_chunks 0 7200 100 = [(0, 5400), (5460, 7200)] ∧
    (0 : Int) ≤ 5430 ∧ (5430 : Int) ≤ 7200 ∧
    coversPoint (calculate_chunks 0 7200 100) 5430 = false := by
  have h1 : calculate_chunks 0 7200 100 = [(0, 5400), (5460, 7200)] := by
    unfold calculate_chunks
    rw [if_neg (by decide), show chunkMinutes 100 = 90 from rfl,
        calcLoop_cons 7200 90 0 5400 5460 (by norm_num) (by omega) (by norm_num),
        calcLoop_cons 7200 90 5460 7200 7260 (by norm_num) (by omega) (by norm_num),
        calcLoop_nil 7200 90 7260 (by norm_num)]
  refine ⟨h1, by norm_num, by norm_num, ?_⟩
  rw [h1]
  decide

/-- Claim C1, amended: for `start < end` the chunk plan is nonempty and
ordered, starts at `start`, consecutive chunks are separated by exactly one
minute (the deliberate anti-overlap skip), the last chunk ends within one
minute of `end`, and every instant of the range is inside a chunk or at most
one minute past a chunk's end — the union equals the range minus those
sub-minute boundary gaps. -/
theorem claim_C1_amended (start_date end_date : Int) (max_bars : Nat)
    (h : start_date < end_date) :
    chunkPlanOk start_date end_date (calculate_chunks start_date end_date max_bars) := by
  unfold calculate_chunks
  by_cases hc : totalMinutes start_date end_date ≤ (max_bars : Int)
  · rw [if_pos hc]
    refine ⟨by simp, by simp, by simp, by simp, ?_,
      ⟨(start_date, end_date), by simp, by omega, le_refl _⟩, by simp; omega, ?_⟩
    · intro c hcm
      rcases List.mem_cons.mp hcm with rfl | h'
      · exact ⟨le_refl _, by omega, le_refl _⟩
      · simp at h'
    · intro t ht1 ht2
      exact Or.inl ⟨(start_date, end_date), by simp, ht1, ht2⟩
  · rw [if_neg hc]
    exact calcLoop_spec end_date (chunkMinutes max_bars) start_date h

/-- Witness for the amended C1 at the counterexample's input. -/
theorem claim_C1_amended_witness :
    (0 : Int) < 7200 ∧ chunkPlanOk 0 7200 (calculate_chunks 0 7200 100) :=
  ⟨by norm_num, claim_C1_amended 0 7200 100 (by norm_num)⟩

/-- Claim C2: whenever the range's size in minutes (as the code computes it)
is at most `max_bars`, the planner returns the single chunk equal to the
requested range. -/
theorem claim_C2 (start_date end_date : Int) (max_bars : Nat)
    (h : totalMinutes start_date end_date ≤ (max_bars : Int)) :
    calculate_chunks start_date end_date max_bars = [(start_date, end_date)] := by
  unfold calculate_chunks
  rw [if_pos h]

/-- Witness for C2: one hour at `max_bars = 100000`. -/
theorem claim_C2_witness :
    totalMinutes 0 3600 ≤ ((100000 : Nat) : Int) ∧
      calculate_chunks 0 3600 100000 = [(0, 3600)] :=
  ⟨by decide, claim_C2 0 3600 100000 (by decide)⟩

/-- Claim C3, counterexample: for the range `[0, 259200]` (three days) the
batch loop fetches `[(172800, 259200), (86400, 172800), (0, 86400)]` — the
fetched sub-ranges' start instants are `172800, 86400, 0`, which do not
advance monotonically from the start date toward the end date. -/
theorem claim_C3_counterexample :
    batchLoop 0 259200 = [(172800, 259200), (86400, 172800), (0, 86400)] ∧
    (batchLoop 0 259200).map Prod.fst = [172800, 86400, 0] ∧
    ¬ List.Pairwise (fun a b : Int => a ≤ b) ((batchLoop 0 259200).map Prod.fst) := by
  have h1 : batchLoop 0 259200 = [(172800, 259200), (86400, 172800), (0, 86400)] := by
    rw [batchLoop_cons 0 259200 172800 (by norm_num) (by omega),
        batchLoop_cons 0 172800 86400 (by norm_num) (by omega),
        batchLoop_cons 0 86400 0 (by norm_num) (by omega),
        batchLoop_nil 0 0 (by norm_num)]
  refine ⟨h1, by rw [h1]; rfl, ?_⟩
  rw [h1]
  decide

/-- Claim C3, amended: the fetched sub-ranges advance monotonically from the
end date toward the start date (reverse chronological order): the first
fetched batch ends at `end`, each later batch ends exactly where the
previously fetched one starts, the last fetched batch starts at `start`, and
together they cover the whole requested range. -/
theorem claim_C3_amended (start_date end_date : Int) (h : start_date < end_date) :
    batchPlanOk start_date end_date (batchLoop start_date end_date) :=
  batchLoop_spec start_date end_date h

/-- Witness for the amended C3 at the counterexample's input. -/
theorem claim_C3_amended_witness :
    (0 : Int) < 259200 ∧ batchPlanOk 0 259200 (batchLoop 0 259200) :=
  ⟨by norm_num, claim_C3_amended 0 259200 (by norm_num)⟩

/-- Claim C5: the concatenation of the accumulated per-chunk results — the
accumulation step both pipelines apply to their fetch results — contains
exactly the records of the non-empty results, in their original order (the
`None` and empty results contribute nothing). -/
theorem claim_C5 (results : List (Option (List Row))) :
    (accumulate results).flatten = (results.filterMap id).flatten :=
  accumulate_flatten results

/-- Claim C6: the tick pipeline's finalized output is sorted by timestamp and
is a permutation of its input (no deduplication); the bar pipeline's
finalized output is sorted by timestamp and no two of its records share a
timestamp. -/
theorem claim_C6 (rows : List Row) :
    List.Sorted leT (finalizeTicks rows) ∧
    (finalizeTicks rows).Perm rows ∧
    List.Sorted leT (finalizeBars rows) ∧
    (finalizeBars rows).Pairwise (fun a b => a.time ≠ b.time) := by
  refine ⟨List.sorted_insertionSort leT rows, List.perm_insertionSort leT rows, ?_,
    dropDupsBy_pairwise [] _⟩
  exact List.Pairwise.sublist (dropDupsBy_sublist [] _) (List.sorted_insertionSort leT rows)

/-- The chunking loop's multi-chunk branch is only reached on a forward
range: a positive minute count forces `start < end`. -/
theorem totalMinutes_pos (start_date end_date : Int)
    (h : 0 < totalMinutes start_date end_date) : start_date < end_date := by
  by_contra hc
  push_neg at hc
  have h1 : end_date - start_date ≤ 0 := by omega
  have h2 : (0 : Int) ≤ -(end_date - start_date) := by omega
  have h3 : (0 : Int) ≤ (-(end_date - start_date)).tdiv 60 :=
    Int.tdiv_nonneg h2 (by norm_num)
  rw [Int.neg_tdiv] at h3
  unfold totalMinutes at h
  omega

/-- Claim C9: both loops make strict progress and terminate.  Chunk starts
advance by at least one minute per iteration — also when
`int(max_bars * 0.9)` is zero, as at `max_bars = 1` — and the plan length is
bounded by the range size; the batch loop's `current_end` values strictly
decrease and the loop stops exactly at the start date. -/
theorem claim_C9 :
    (∀ s e : Int, ∀ M : Nat,
      List.Chain' (fun a b : Int × Int => a.1 + 60 ≤ b.1) (calculate_chunks s e M)) ∧
    (∀ s e : Int, ∀ M : Nat, (calculate_chunks s e M).length ≤ (e - s).toNat + 1) ∧
    chunkMinutes 1 = 0 ∧
    (∀ s e : Int, List.Chain' (fun a b : Int × Int => b.2 < a.2) (batchLoop s e)) ∧
    (∀ s e : Int, (batchLoop s e).length ≤ (e - s).toNat) ∧
    (∀ s e : Int, s < e → ∃ p, (batchLoop s e).getLast? = some p ∧ p.1 = s) := by
  have hfwd : ∀ s e : Int, ∀ M : Nat,
      ¬ totalMinutes s e ≤ (M : Int) → s < e := by
    intro s e M hM
    exact totalMinutes_pos s e (by omega)
  refine ⟨?_, ?_, rfl, ?_, ?_, ?_⟩
  · intro s e M
    unfold calculate_chunks
    by_cases hc : totalMinutes s e ≤ (M : Int)
    · rw [if_pos hc]
      simp
    · rw [if_neg hc]
      obtain ⟨-, -, -, hchain, -, -, -, -⟩ :=
        calcLoop_spec e (chunkMinutes M) s (hfwd s e M hc)
      exact hchain
  · intro s e M
    unfold calculate_chunks
    by_cases hc : totalMinutes s e ≤ (M : Int)
    · rw [if_pos hc]
      simp
    · rw [if_neg hc]
      obtain ⟨-, -, -, -, -, -, hlen, -⟩ :=
        calcLoop_spec e (chunkMinutes M) s (hfwd s e M hc)
      omega
  · intro s e
    by_cases h : s < e
    · obtain ⟨-, -, -, -, hchain, -, -, -⟩ := batchLoop_spec s e h
      exact hchain
    · rw [batchLoop_nil s e h]
      simp
  · intro s e
    by_cases h : s < e
    · obtain ⟨-, -, -, -, -, -, hlen, -⟩ := batchLoop_spec s e h
      exact hlen
    · rw [batchLoop_nil s e h]
      simp
  · intro s e h
    obtain ⟨-, -, hlast, -, -, -, -, -⟩ := batchLoop_spec s e h
    exact hlast

/-- Witness for C9 at a one-day range. -/
theorem claim_C9_witness :
    (0 : Int) < 86400 ∧ ∃ p, (batchLoop 0 86400).getLast? = some p ∧ p.1 = 0 :=
  ⟨by norm_num, claim_C9.2.2.2.2.2 0 86400 (by norm_num)⟩

/-- When every tick query yields no records, every fetched batch accumulates
nothing. -/
theorem get_ticks_empty (o : TickOracle)
    (ht : ∀ a b ts, o.copyTicks a b = Except.ok (some ts) → ts = []) :
    ∀ a b, get_ticks_by_date_range o.copyTicks a b = none ∨
      get_ticks_by_date_range o.copyTicks a b = some [] := by
  intro a b
  unfold get_ticks_by_date_range
  cases hcb : o.copyTicks a b with
  | error u => exact Or.inl rfl
  | ok r =>
    cases r with
    | none => exact Or.inl rfl
    | some ts => exact Or.inr (by rw [ht a b ts hcb])

/-- Claim C4: when every chunk and batch yields zero records, the tick batch
loop returns `False` with no accumulated data, the whole tick run writes no
file, the bar downloader returns `None`, and the bar run writes no file. -/
theorem claim_C4 (o : TickOracle) (ob : BarOracle) (symbol : String)
    (start_date end_date : Int) (max_bars : Nat) (out : Option String)
    (ht : ∀ a b ts, o.copyTicks a b = Except.ok (some ts) → ts = [])
    (hb : ∀ a b rs, ob.copyRates a b = Except.ok (some rs) → rs = []) :
    download_in_batches o.copyTicks start_date end_date = (false, none) ∧
    (download_ticks_by_date o symbol start_date end_date out).1 = none ∧
    download_historical_data ob.copyRates start_date end_date max_bars = none ∧
    (barMain ob start_date end_date max_bars).1 = false := by
  have hget := get_ticks_empty o ht
  have hdib : download_in_batches o.copyTicks start_date end_date = (false, none) := by
    unfold download_in_batches
    rw [accumulate_nil _ ?_]
    · rfl
    · intro r hr
      rw [List.mem_map] at hr
      obtain ⟨bt, -, rfl⟩ := hr
      exact hget bt.1 bt.2
  have hdbr : (download_by_date_range o start_date end_date).1 = (false, none) := by
    unfold download_by_date_range
    by_cases h1 : (initialize_mt5 o).1 = false
    · simp [h1]
    · simp only [h1, if_false]
      rcases hget start_date end_date with hfull | hfull <;>
        simp [hfull, hdib]
  have hchunk : ∀ a b, download_chunk ob.copyRates a b = none := by
    intro a b
    unfold download_chunk
    cases hcb : ob.copyRates a b with
    | error u => rfl
    | ok r =>
      cases r with
      | none => rfl
      | some rs =>
        rw [hb a b rs hcb]
        rfl
  have haccb : accumulate ((calculate_chunks start_date end_date max_bars).map
      fun c => download_chunk ob.copyRates c.1 c.2) = [] := by
    apply accumulate_nil
    intro r hr
    rw [List.mem_map] at hr
    obtain ⟨c, -, rfl⟩ := hr
    exact Or.inl (hchunk c.1 c.2)
  have hdhd : download_historical_data ob.copyRates start_date end_date max_bars = none := by
    unfold download_historical_data
    simp only [haccb]
    rfl
  refine ⟨hdib, ?_, hdhd, ?_⟩
  · unfold download_ticks_by_date
    simp [hdbr]
  · unfold barMain
    by_cases h1 : ob.initOk = false
    · simp [h1]
    · simp [h1, hdhd]

/-- Witness for C4: environments whose every range query succeeds with no
data. -/
theorem claim_C4_witness :
    (download_ticks_by_date tickOracleAllEmpty "EURUSD" 0 172800 none).1 = none ∧
    (barMain barOracleAllEmpty 0 172800 100).1 = false := by
  have h := claim_C4 tickOracleAllEmpty barOracleAllEmpty "EURUSD" 0 172800 100 none
    (by intro a b ts hcb; simp [tickOracleAllEmpty] at hcb)
    (by intro a b rs hcb; simp [barOracleAllEmpty] at hcb)
  exact ⟨h.2.1, h.2.2.2⟩

/-- Claim C7, counterexample: for two ticks on 2024-01-01 and 2024-01-05 the
auto-generated filename is `EURUSD_ticks_20240101_to_20240105_2.csv`, which
does not match the claimed pattern `<symbol>_<kind>_<start>_<end>_<count>.csv`
for any kind marker: the name carries a literal `to` component between the
two dates. -/
theorem claim_C7_counterexample :
    save_ticks_to_csv tickOracleAllEmpty "EURUSD"
        (some [⟨1704067200, 0⟩, ⟨1704412800, 1⟩]) none =
      some "EURUSD_ticks_20240101_to_20240105_2.csv" ∧
    fmtYMD 1704067200 = "20240101" ∧
    fmtYMD 1704412800 = "20240105" ∧
    ¬ matchesClaimedPattern "EURUSD_ticks_20240101_to_20240105_2.csv" "EURUSD"
        "20240101" "20240105" 2 := by
  refine ⟨by decide, by decide, by decide, ?_⟩
  rintro ⟨kind, h⟩
  have ht : toString (2 : Nat) = "2" := by decide
  rw [ht] at h
  have hlen := congrArg String.length h
  simp only [String.length_append] at hlen
  have c1 : "EURUSD_ticks_20240101_to_20240105_2.csv".length = 39 := by decide
  have c2 : "EURUSD".length = 6 := by decide
  have c3 : "_".length = 1 := by decide
  have c4 : "20240101".length = 8 := by decide
  have c5 : "20240105".length = 8 := by decide
  have c6 : "2".length = 1 := by decide
  have c7 : ".csv".length = 4 := by decide
  have hk : kind.length = 8 := by omega
  have hkd : kind.data.length = 8 := hk
  have hd := congrArg String.data h
  simp only [String.data_append] at hd
  have hd2 : "EURUSD_ticks_20240101_to_20240105_2.csv".data =
      ("EURUSD".data ++ "_".data ++ kind.data) ++
        ("_".data ++ "20240101".data ++ "_".data ++ "20240105".data ++ "_".data ++
          "2".data ++ ".csv".data) := by
    simp only [List.append_assoc]
    simpa [List.append_assoc] using hd
  have hlen2 : ("EURUSD".data ++ "_".data ++ kind.data).length = 15 := by
    simp only [List.length_append, hkd]
    decide
  have hdrop : List.drop 15 "EURUSD_ticks_20240101_to_20240105_2.csv".data =
      ("_".data ++ "20240101".data ++ "_".data ++ "20240105".data ++ "_".data ++
        "2".data ++ ".csv".data) := by
    rw [hd2, ← hlen2, List.drop_left]
  exact absurd hdrop (by decide)

/-- Claim C7, amended: the auto-generated filename is
`<symbol>_ticks_<start>_to_<end>_<count>.csv`, where `start` and `end` are
the `%Y%m%d` renderings of the earliest and latest record timestamps (the
sorted frame's first and last rows) and `count` is the number of records. -/
theorem claim_C7_amended (o : TickOracle) (symbol : String) (ticks : List Row)
    (t0 : Row) (rest : List Row) (p : Row)
    (hdf : finalizeTicks ticks = t0 :: rest)
    (hlast : (finalizeTicks ticks).getLast? = some p)
    (hcsv : o.toCsv = Except.ok ())
    (hex : o.fileExists = true) :
    save_ticks_to_csv o symbol (some ticks) none =
      some (symbol ++ "_ticks_" ++ fmtYMD t0.time ++ "_to_" ++ fmtYMD p.time ++
        "_" ++ toString ticks.length ++ ".csv") := by
  have hsorted : List.Sorted leT (finalizeTicks ticks) :=
    List.sorted_insertionSort leT ticks
  have hmin : timesMin (finalizeTicks ticks) = t0.time := by
    rw [hdf]
    exact timesMin_sorted_head t0 rest (hdf ▸ hsorted)
  have hmax : timesMax (finalizeTicks ticks) = p.time := by
    rw [hdf]
    exact timesMax_sorted_getLast t0 rest p (hdf ▸ hsorted) (hdf ▸ hlast)
  have hlen : (finalizeTicks ticks).length = ticks.length :=
    (List.perm_insertionSort leT ticks).length_eq
  have hne : ¬ ticks.length = 0 := by
    rw [← hlen, hdf]
    simp
  simp only [save_ticks_to_csv, hne, if_false, hcsv, hex, hmin, hmax, hlen, ite_false,
    ite_true]

/-- Witness for the amended C7 at the counterexample's ticks. -/
theorem claim_C7_amended_witness :
    save_ticks_to_csv tickOracleAllEmpty "EURUSD"
        (some [⟨1704067200, 0⟩, ⟨1704412800, 1⟩]) none =
      some ("EURUSD" ++ "_ticks_" ++ fmtYMD (Row.mk 1704067200 0).time ++ "_to_" ++
        fmtYMD (Row.mk 1704412800 1).time ++ "_" ++
        toString ([Row.mk 1704067200 0, Row.mk 1704412800 1] : List Row).length ++
        ".csv") :=
  claim_C7_amended tickOracleAllEmpty "EURUSD"
    [⟨1704067200, 0⟩, ⟨1704412800, 1⟩] ⟨1704067200, 0⟩ [⟨1704412800, 1⟩]
    ⟨1704412800, 1⟩ (by decide) (by decide) rfl rfl

/-- Claim C8: in any environment, a run that established a session tears it
down on every exit path, and exceptions raised by the fetch and save calls
are converted to `None`/`False` failure results by the `try/except` blocks
that wrap them, never propagating out of the pipelines. -/
theorem claim_C8 (o : TickOracle) (ob : BarOracle) (symbol : String)
    (start_date end_date : Int) (max_bars : Nat) (out : Option String)
    (ho : o.initOk = true) (hob : ob.initOk = true) :
    (download_by_date_range o start_date end_date).2 = true ∧
    (download_ticks_by_date o symbol start_date end_date out).2 = true ∧
    (barMain ob start_date end_date max_bars).2 = true ∧
    (∀ a b, o.copyTicks a b = Except.error () →
      get_ticks_by_date_range o.copyTicks a b = none) ∧
    (o.toCsv = Except.error () → ∀ ticks f,
      save_ticks_to_csv o symbol (some ticks) f = none) ∧
    (∀ a b, ob.copyRates a b = Except.error () →
      download_chunk ob.copyRates a b = none) ∧
    (ob.toCsv = Except.error () → save_to_csv ob.toCsv = (false, false)) := by
  have hsd : (download_by_date_range o start_date end_date).2 = true := by
    unfold download_by_date_range
    by_cases h1 : (initialize_mt5 o).1 = false
    · have h2 : (initialize_mt5 o).2 = true := by
        unfold initialize_mt5 at h1 ⊢
        rw [ho] at h1 ⊢
        by_cases h3 : o.symbolOk = false
        · simp [h3]
        · simp [h3] at h1
      simp [h1, h2]
    · simp only [h1, if_false]
      cases get_ticks_by_date_range o.copyTicks start_date end_date with
      | none => simp
      | some ts =>
        by_cases hl : 0 < ts.length <;> simp [hl]
  refine ⟨hsd, ?_, ?_, ?_, ?_, ?_, ?_⟩
  · unfold download_ticks_by_date
    by_cases h : (download_by_date_range o start_date end_date).1.1 <;> simp [h, hsd]
  · unfold barMain
    rw [hob]
    cases download_historical_data ob.copyRates start_date end_date max_bars <;> simp
  · intro a b hab
    unfold get_ticks_by_date_range
    rw [hab]
  · intro hcsv ticks f
    by_cases hl : ticks.length = 0
    · simp [save_ticks_to_csv, hl]
    · simp [save_ticks_to_csv, hl, hcsv]
  · intro a b hab
    unfold download_chunk
    rw [hab]
  · intro hcsv
    rw [hcsv]
    rfl

/-- Witness for C8: an environment whose every fetch and write call raises. -/
theorem claim_C8_witness :
    (download_by_date_range tickOracleErr 0 86400).2 = true ∧
    (download_ticks_by_date tickOracleErr "EURUSD" 0 86400 none).2 = true ∧
    (barMain barOracleErr 0 7200 100).2 = true ∧
    get_ticks_by_date_range tickOracleErr.copyTicks 0 86400 = none ∧
    save_ticks_to_csv tickOracleErr "EURUSD" (some [⟨0, 0⟩]) none = none ∧
    download_chunk barOracleErr.copyRates 0 7200 = none ∧
    save_to_csv barOracleErr.toCsv = (false, false) := by
  have h := claim_C8 tickOracleErr barOracleErr "EURUSD" 0 86400 100 none rfl rfl
  exact ⟨h.1, h.2.1, by
      have hb := claim_C8 tickOracleErr barOracleErr "EURUSD" 0 7200 100 none rfl rfl
      exact hb.2.2.1,
    h.2.2.2.1 0 86400 rfl, h.2.2.2.2.1 rfl [⟨0, 0⟩] none,
    h.2.2.2.2.2.1 0 7200 rfl, h.2.2.2.2.2.2 rfl⟩

/-- Claim C10: every fetched batch spans one day back from its end, clipped
below at the start date; each batch ends exactly at the previously fetched
batch's start, so consecutive batches share one boundary instant; and since
the tick pipeline never deduplicates, a tick timestamped exactly at a batch
boundary (here `86400`, the boundary of the two one-day batches of
`[0, 172800]`) appears twice in the accumulated output. -/
theorem claim_C10 :
    (∀ s e : Int, ∀ b ∈ batchLoop s e, b.1 = max (b.2 - 86400) s) ∧
    (∀ s e : Int, List.Chain' (fun a b : Int × Int => b.2 = a.1) (batchLoop s e)) ∧
    download_in_batches (dbFetch [⟨86400, 0⟩]) 0 172800 =
      (true, some [⟨86400, 0⟩, ⟨86400, 0⟩]) := by
  refine ⟨?_, ?_, ?_⟩
  · intro s e b hb
    by_cases h : s < e
    · obtain ⟨-, -, -, -, -, hmem, -, -⟩ := batchLoop_spec s e h
      exact (hmem b hb).2.2.2
    · rw [batchLoop_nil s e h] at hb
      simp at hb
  · intro s e
    by_cases h : s < e
    · obtain ⟨-, -, -, hchain, -, -, -, -⟩ := batchLoop_spec s e h
      exact hchain
    · rw [batchLoop_nil s e h]
      simp
  · have hbl : batchLoop 0 172800 = [(86400, 172800), (0, 86400)] := by
      rw [batchLoop_cons 0 172800 86400 (by norm_num) (by omega),
          batchLoop_cons 0 86400 0 (by norm_num) (by omega),
          batchLoop_nil 0 0 (by norm_num)]
    unfold download_in_batches
    rw [hbl]
    decide

/-- Witness for C10: the first fetched batch of `[0, 172800]` has the
one-day-back clipped shape. -/
theorem claim_C10_witness :
    ((86400 : Int), (172800 : Int)).1 = max (((86400 : Int), (172800 : Int)).2 - 86400) 0 :=
  claim_C10.1 0 172800 (86400, 172800)
    (by rw [batchLoop_cons 0 172800 86400 (by norm_num) (by omega)]
        exact List.mem_cons_self _ _)

end MT5Spec
